import Mathlib

/-!
Verification of the signaling relay server (`src/signaling/server.js`).

The server keeps a `rooms : Map<roomKey, Set<ws>>`, handles `join-room`
messages by inserting the connection into the room and acknowledging with a
`joined` envelope, relays `offer`/`answer`/`ice-candidate` envelopes to the
other members of the room named by the envelope, cleans up room membership on
close, and runs a heartbeat that terminates connections whose liveness flag
was not refreshed by a pong since the previous tick.

The embedding below models JSON values structurally, connections as records
carrying the fields the server sets on the socket object (`isAlive`,
`roomId`, `senderId`) plus the socket's open/closed state, and the event loop
as a step function over connection events. Message frames arrive as
`Option Json`: `none` models bytes on which `JSON.parse` throws (the handler
catches, logs and drops). Deliveries are returned explicitly as a list of
(recipient connection id, JSON value) pairs.
-/

namespace RemoteTeleop

mutual
/-- Structural model of a JSON value (the result of `JSON.parse`). -/
inductive Json where
  | null
  | bool (b : Bool)
  | num (n : Int)
  | str (s : String)
  | arr (elems : JsonList)
  | obj (fields : JsonFields)
  deriving DecidableEq

/-- The elements of a JSON array. -/
inductive JsonList where
  | nil
  | cons (hd : Json) (tl : JsonList)
  deriving DecidableEq

/-- The fields of a JSON object. -/
inductive JsonFields where
  | nil
  | cons (key : String) (val : Json) (tl : JsonFields)
  deriving DecidableEq
end

/-- Field access on an object (`data.foo` / destructuring): `none` models the
JS value `undefined` (missing field, or access on a non-object). -/
def lookupField : JsonFields → String → Option Json
  | .nil, _ => none
  | .cons k v rest, key => if k = key then some v else lookupField rest key

def Json.get : Json → String → Option Json
  | .obj fields, key => lookupField fields key
  | _, _ => none

/-- JS truthiness of a JSON value (used by `if (ws.roomId && ...)`). -/
def Json.truthy : Json → Bool
  | .null => false
  | .bool b => b
  | .num n => n != 0
  | .str s => s != ""
  | .arr _ => true
  | .obj _ => true

/-- A room key is the JS value stored in `ws.roomId` / used as the `rooms` Map
key; `none` models `undefined` (e.g. an envelope with no `roomId` field). -/
abbrev RoomKey := Option Json

/-- Truthiness of a possibly-`undefined` value. -/
def keyTruthy : RoomKey → Bool
  | none => false
  | some j => j.truthy

/-- One connection: the socket handle (identified by `id`), its open/closed
state (`readyState === OPEN`), and the fields the server sets on it:
`ws.isAlive`, `ws.roomId`, `ws.senderId`. -/
structure Conn where
  id : Nat
  isOpen : Bool
  isAlive : Bool
  roomId : RoomKey
  senderId : RoomKey
deriving DecidableEq

/-- Server state: the connection table (the ws library's client set, with
closed sockets retained as `isOpen = false` records so stale references to
them still answer `readyState`), and the `rooms` Map, each room holding its
member set as a duplicate-free list of connection ids. -/
structure ServerState where
  conns : List Conn
  rooms : List (RoomKey × List Nat)
deriving DecidableEq

def initState : ServerState := ⟨[], []⟩

/-- `rooms.get(key)`. -/
def lookupRoom : List (RoomKey × List Nat) → RoomKey → Option (List Nat)
  | [], _ => none
  | (k, ms) :: rest, key => if k = key then some ms else lookupRoom rest key

/-- `rooms.has(key)`. -/
def hasRoom (rooms : List (RoomKey × List Nat)) (key : RoomKey) : Bool :=
  (lookupRoom rooms key).isSome

/-- Update the member set of the room stored under `key`. -/
def mapRoom : List (RoomKey × List Nat) → RoomKey → (List Nat → List Nat) →
    List (RoomKey × List Nat)
  | [], _, _ => []
  | (k, ms) :: rest, key, f =>
      (k, if k = key then f ms else ms) :: mapRoom rest key f

/-- `rooms.delete(key)`. -/
def removeRoom : List (RoomKey × List Nat) → RoomKey → List (RoomKey × List Nat)
  | [], _ => []
  | (k, ms) :: rest, key =>
      if k = key then removeRoom rest key else (k, ms) :: removeRoom rest key

/-- `Set.add`: inserting an element already present leaves the set unchanged. -/
def addMember (ms : List Nat) (cid : Nat) : List Nat :=
  if cid ∈ ms then ms else ms ++ [cid]

/-- Member set of room `key` (empty if the room is absent). -/
def membersOf (st : ServerState) (key : RoomKey) : List Nat :=
  (lookupRoom st.rooms key).getD []

def findConn (st : ServerState) (cid : Nat) : Option Conn :=
  st.conns.find? (fun c => c.id == cid)

/-- `client.readyState === WebSocket.OPEN` for the connection with this id. -/
def connOpen (st : ServerState) (cid : Nat) : Bool :=
  ((findConn st cid).map Conn.isOpen).getD false

/-- The connection's `isAlive` flag. -/
def connAlive (st : ServerState) (cid : Nat) : Bool :=
  ((findConn st cid).map Conn.isAlive).getD false

/-- The connection's recorded `ws.roomId`. -/
def connRoom (st : ServerState) (cid : Nat) : RoomKey :=
  ((findConn st cid).map Conn.roomId).getD none

/-- Apply `f` to the connection record with id `cid`. -/
def updateConn (st : ServerState) (cid : Nat) (f : Conn → Conn) : ServerState :=
  { st with conns := st.conns.map (fun c => if c.id == cid then f c else c) }

/-- The three relayed negotiation types. -/
def relayTypes : List Json := [.str "offer", .str "answer", .str "ice-candidate"]

/-- `['offer', 'answer', 'ice-candidate'].includes(type)`. -/
def isRelayType (data : Json) : Bool :=
  match data.get "type" with
  | some t => relayTypes.contains t
  | none => false

/-- The `joined` acknowledgment envelope:
`JSON.stringify({type: 'joined', roomId, peersInRoom})`; a `roomId` that is
`undefined` is omitted by `JSON.stringify`. -/
def joinedAck (key : RoomKey) (n : Nat) : Json :=
  .obj (.cons "type" (.str "joined")
    (match key with
     | none => .cons "peersInRoom" (.num n) .nil
     | some j => .cons "roomId" j (.cons "peersInRoom" (.num n) .nil)))

/-- The room-table part of the join branch:
`if (!rooms.has(roomId)) rooms.set(roomId, new Set()); rooms.get(roomId).add(ws)`. -/
def joinRooms (rooms : List (RoomKey × List Nat)) (key : RoomKey) (cid : Nat) :
    List (RoomKey × List Nat) :=
  mapRoom (if hasRoom rooms key then rooms else rooms ++ [(key, [])]) key
    (fun ms => addMember ms cid)

/-- The `ws.on('message')` handler. `frame = none` models bytes on which
`JSON.parse` throws: the catch logs and drops. Returns the new state and the
list of deliveries (recipient id, JSON value sent). -/
def handleMessage (st : ServerState) (cid : Nat) (frame : Option Json) :
    ServerState × List (Nat × Json) :=
  match frame with
  | none => (st, [])
  | some data =>
    if data.get "type" = some (.str "join-room") then
      -- ws.roomId = roomId; ws.senderId = senderId; ws.send({type:'joined',...})
      let key := data.get "roomId"
      let rooms2 := joinRooms st.rooms key cid
      let st1 := updateConn { st with rooms := rooms2 } cid
        (fun c => { c with roomId := key, senderId := data.get "senderId" })
      let cnt := (lookupRoom rooms2 key).getD [] |>.length
      (st1, [(cid, joinedAck key cnt)])
    else if isRelayType data then
      -- const room = rooms.get(roomId); if (room) room.forEach(...)
      match lookupRoom st.rooms (data.get "roomId") with
      | none => (st, [])
      | some ms =>
          (st, (ms.filter (fun m => m != cid && connOpen st m)).map
                 (fun m => (m, data)))
    else
      (st, [])

/-- The socket leaving the live client set on close. -/
def markClosed (c : Conn) : Conn := { c with isOpen := false }

/-- `ws.isAlive = true`. -/
def setAlive (c : Conn) : Conn := { c with isAlive := true }

/-- `ws.isAlive = false` (the tick clearing the flag before pinging). -/
def clearAlive (c : Conn) : Conn := { c with isAlive := false }

/-- The `ws.on('close')` handler, together with the ws library removing the
socket from the live client set (`isOpen := false`). -/
def handleClose (st : ServerState) (cid : Nat) : ServerState :=
  let st1 := updateConn st cid markClosed
  if keyTruthy (connRoom st cid) && hasRoom st1.rooms (connRoom st cid) then
    let rooms1 := mapRoom st1.rooms (connRoom st cid) (fun ms => ms.erase cid)
    { st1 with rooms :=
        if (lookupRoom rooms1 (connRoom st cid)).getD [] = [] then
          removeRoom rooms1 (connRoom st cid)
        else rooms1 }
  else st1

/-- The `ws.on('pong')` handler: `ws.isAlive = true`. -/
def handlePong (st : ServerState) (cid : Nat) : ServerState :=
  updateConn st cid setAlive

/-- One connection's share of a heartbeat tick: skip if no longer a live
client; if its flag is false, terminate it (which fires the close handler);
otherwise clear the flag and ping. Returns (state, terminated?, pinged?). -/
def tickConn (st : ServerState) (cid : Nat) : ServerState × Bool × Bool :=
  if connOpen st cid then
    if connAlive st cid then
      (updateConn st cid clearAlive, false, true)
    else
      (handleClose st cid, true, false)
  else
    (st, false, false)

/-- Process a list of connection ids in order, one `tickConn` each,
collecting the terminated and the pinged ids. -/
def runTicks : ServerState → List Nat → ServerState × List Nat × List Nat
  | st, [] => (st, [], [])
  | st, cid :: rest =>
      let r := tickConn st cid
      let rr := runTicks r.1 rest
      (rr.1, (if r.2.1 then [cid] else []) ++ rr.2.1,
             (if r.2.2 then [cid] else []) ++ rr.2.2)

/-- One heartbeat tick: `wss.clients.forEach(...)` over the snapshot of live
clients. Returns (state, terminated ids, pinged ids). -/
def heartbeatTick (st : ServerState) : ServerState × List Nat × List Nat :=
  runTicks st ((st.conns.filter (·.isOpen)).map (·.id))

/-- Events processed by the single-threaded event loop. -/
inductive Event where
  | connect (cid : Nat)
  | message (cid : Nat) (frame : Option Json)
  | pong (cid : Nat)
  | close (cid : Nat)
  | tick
deriving DecidableEq

def newConn (cid : Nat) : Conn :=
  { id := cid, isOpen := true, isAlive := true, roomId := none, senderId := none }

/-- One event-loop step. Connection events only fire for sockets in the
matching state: `connect` only with a fresh id (socket objects are never
reused), `message`/`pong`/`close` only for a live connection. -/
def step (st : ServerState) (ev : Event) : ServerState × List (Nat × Json) :=
  match ev with
  | .connect cid =>
      if st.conns.any (fun c => c.id == cid) then (st, [])
      else ({ st with conns := st.conns ++ [newConn cid] }, [])
  | .message cid frame =>
      if connOpen st cid then handleMessage st cid frame else (st, [])
  | .pong cid =>
      if connOpen st cid then (handlePong st cid, []) else (st, [])
  | .close cid =>
      if connOpen st cid then (handleClose st cid, []) else (st, [])
  | .tick => ((heartbeatTick st).1, [])

/-- Run a sequence of events, keeping only the state. -/
def run (st : ServerState) (evs : List Event) : ServerState :=
  evs.foldl (fun s e => (step s e).1) st

/-- Well-formedness of a server state: connection ids are unique, the `rooms`
Map has unique keys (as a JS Map does), no room is empty, and member sets are
duplicate-free (as JS Sets are). -/
def WF (st : ServerState) : Prop :=
  (st.conns.map Conn.id).Nodup ∧
  (st.rooms.map Prod.fst).Nodup ∧
  (∀ r ∈ st.rooms, r.2 ≠ []) ∧
  (∀ r ∈ st.rooms, r.2.Nodup)

/-! ### Lemmas about the room table -/

theorem lookupRoom_mapRoom_self (rooms : List (RoomKey × List Nat)) (key : RoomKey)
    (f : List Nat → List Nat) :
    lookupRoom (mapRoom rooms key f) key = (lookupRoom rooms key).map f := by
  induction rooms with
  | nil => rfl
  | cons r rest ih =>
      obtain ⟨k, ms⟩ := r
      by_cases h : k = key
      · subst h
        simp [mapRoom, lookupRoom]
      · simp [mapRoom, lookupRoom, h, ih]

theorem lookupRoom_mapRoom_ne (rooms : List (RoomKey × List Nat)) {key k : RoomKey}
    (f : List Nat → List Nat) (hne : k ≠ key) :
    lookupRoom (mapRoom rooms key f) k = lookupRoom rooms k := by
  induction rooms with
  | nil => rfl
  | cons r rest ih =>
      obtain ⟨k', ms⟩ := r
      by_cases h2 : k' = k
      · subst h2
        simp [mapRoom, lookupRoom, hne, ih]
      · simp [mapRoom, lookupRoom, h2, ih]

theorem mapRoom_keys (rooms : List (RoomKey × List Nat)) (key : RoomKey)
    (f : List Nat → List Nat) :
    (mapRoom rooms key f).map Prod.fst = rooms.map Prod.fst := by
  induction rooms with
  | nil => rfl
  | cons r rest ih =>
      obtain ⟨k, ms⟩ := r
      by_cases h : k = key <;> simp [mapRoom, h, ih]

theorem mem_mapRoom {rooms : List (RoomKey × List Nat)} {key : RoomKey}
    {f : List Nat → List Nat} {r : RoomKey × List Nat}
    (h : r ∈ mapRoom rooms key f) :
    (∃ ms, (key, ms) ∈ rooms ∧ r = (key, f ms)) ∨ (r ∈ rooms ∧ r.1 ≠ key) := by
  induction rooms with
  | nil => simp [mapRoom] at h
  | cons hd rest ih =>
      obtain ⟨k, ms⟩ := hd
      simp only [mapRoom, List.mem_cons] at h
      rcases h with h | h
      · by_cases hk : k = key
        · subst hk
          exact Or.inl ⟨ms, by simp, by simpa using h⟩
        · exact Or.inr ⟨by simp [h, hk], by simp [h, hk]⟩
      · rcases ih h with ⟨ms', hm, he⟩ | ⟨hm, hne⟩
        · exact Or.inl ⟨ms', List.mem_cons_of_mem _ hm, he⟩
        · exact Or.inr ⟨List.mem_cons_of_mem _ hm, hne⟩

theorem lookupRoom_append_of_none {rooms : List (RoomKey × List Nat)} {key : RoomKey}
    (h : lookupRoom rooms key = none) (ms : List Nat) :
    lookupRoom (rooms ++ [(key, ms)]) key = some ms := by
  induction rooms with
  | nil => simp [lookupRoom]
  | cons r rest ih =>
      obtain ⟨k, ms'⟩ := r
      by_cases hk : k = key
      · simp [lookupRoom, hk] at h
      · simp only [lookupRoom, if_neg hk] at h ⊢
        exact ih h

theorem lookupRoom_append_ne {rooms : List (RoomKey × List Nat)} {key k : RoomKey}
    (hne : k ≠ key) (ms : List Nat) :
    lookupRoom (rooms ++ [(key, ms)]) k = lookupRoom rooms k := by
  induction rooms with
  | nil => simp [lookupRoom, (Ne.symm hne : key ≠ k)]
  | cons r rest ih =>
      obtain ⟨k', ms'⟩ := r
      by_cases hk : k' = k <;> simp [lookupRoom, hk, ih]

theorem lookupRoom_none_iff {rooms : List (RoomKey × List Nat)} {key : RoomKey} :
    lookupRoom rooms key = none ↔ key ∉ rooms.map Prod.fst := by
  induction rooms with
  | nil => simp [lookupRoom]
  | cons r rest ih =>
      obtain ⟨k, ms⟩ := r
      by_cases hk : k = key
      · subst hk
        simp [lookupRoom]
      · simp [lookupRoom, hk, ih, Ne.symm hk]

theorem mem_of_lookupRoom {rooms : List (RoomKey × List Nat)} {key : RoomKey}
    {ms : List Nat} (h : lookupRoom rooms key = some ms) : (key, ms) ∈ rooms := by
  induction rooms with
  | nil => simp [lookupRoom] at h
  | cons r rest ih =>
      obtain ⟨k, ms'⟩ := r
      by_cases hk : k = key
      · subst hk
        simp [lookupRoom] at h
        subst h
        exact List.mem_cons_self _ _
      · simp only [lookupRoom, if_neg hk] at h
        exact List.mem_cons_of_mem _ (ih h)

theorem lookupRoom_of_mem_nodup {rooms : List (RoomKey × List Nat)} {key : RoomKey}
    {ms : List Nat} (hnd : (rooms.map Prod.fst).Nodup) (h : (key, ms) ∈ rooms) :
    lookupRoom rooms key = some ms := by
  induction rooms with
  | nil => simp at h
  | cons r rest ih =>
      obtain ⟨k, ms'⟩ := r
      simp only [List.map_cons, List.nodup_cons] at hnd
      rcases List.mem_cons.mp h with h | h
      · obtain ⟨h1, h2⟩ := Prod.mk.injEq .. ▸ h
        simp [lookupRoom, h1.symm, h2]
      · have hk : k ≠ key := by
          intro he
          exact hnd.1 (he ▸ (List.mem_map.mpr ⟨(key, ms), h, rfl⟩) : k ∈ rest.map Prod.fst)
        simp [lookupRoom, hk, ih hnd.2 h]

theorem mem_removeRoom {rooms : List (RoomKey × List Nat)} {key : RoomKey}
    {r : RoomKey × List Nat} :
    r ∈ removeRoom rooms key ↔ r ∈ rooms ∧ r.1 ≠ key := by
  induction rooms with
  | nil => simp [removeRoom]
  | cons hd rest ih =>
      obtain ⟨k, ms⟩ := hd
      by_cases h : k = key
      · subst h
        simp only [removeRoom, if_pos rfl, ite_true, ih, List.mem_cons]
        constructor
        · exact fun ⟨hm, hne⟩ => ⟨Or.inr hm, hne⟩
        · rintro ⟨hm | hm, hne⟩
          · exact absurd (by simp [hm]) hne
          · exact ⟨hm, hne⟩
      · simp only [removeRoom, if_neg h, List.mem_cons, ih]
        constructor
        · rintro (rfl | ⟨hm, hne⟩)
          · exact ⟨Or.inl rfl, by simpa using h⟩
          · exact ⟨Or.inr hm, hne⟩
        · rintro ⟨rfl | hm, hne⟩
          · exact Or.inl rfl
          · exact Or.inr ⟨hm, hne⟩

theorem lookupRoom_removeRoom_self (rooms : List (RoomKey × List Nat)) (key : RoomKey) :
    lookupRoom (removeRoom rooms key) key = none := by
  rw [lookupRoom_none_iff]
  intro h
  obtain ⟨r, hr, he⟩ := List.mem_map.mp h
  exact (mem_removeRoom.mp hr).2 he

theorem lookupRoom_removeRoom_ne (rooms : List (RoomKey × List Nat)) {key k : RoomKey}
    (hne : k ≠ key) : lookupRoom (removeRoom rooms key) k = lookupRoom rooms k := by
  induction rooms with
  | nil => rfl
  | cons r rest ih =>
      obtain ⟨k', ms⟩ := r
      by_cases h1 : k' = key
      · subst h1
        have hkk : k' ≠ k := fun he => hne he.symm
        simp [removeRoom, lookupRoom, hkk, ih]
      · by_cases h2 : k' = k
        · subst h2
          simp [removeRoom, lookupRoom, h1]
        · simp [removeRoom, lookupRoom, h1, h2, ih]

theorem removeRoom_keys_sublist (rooms : List (RoomKey × List Nat)) (key : RoomKey) :
    ((removeRoom rooms key).map Prod.fst).Sublist (rooms.map Prod.fst) := by
  induction rooms with
  | nil => simp [removeRoom]
  | cons hd rest ih =>
      obtain ⟨k, ms⟩ := hd
      by_cases h : k = key
      · subst h
        simpa [removeRoom] using ih.cons k
      · simpa [removeRoom, h] using ih.cons₂ k

/-! ### Lemmas about member sets -/

theorem mem_addMember_self (ms : List Nat) (cid : Nat) : cid ∈ addMember ms cid := by
  by_cases h : cid ∈ ms <;> simp [addMember, h]

theorem mem_addMember {ms : List Nat} {cid x : Nat} :
    x ∈ addMember ms cid ↔ x ∈ ms ∨ x = cid := by
  by_cases h : cid ∈ ms <;> simp [addMember, h]
  intro he
  exact he ▸ h

theorem addMember_ne_nil (ms : List Nat) (cid : Nat) : addMember ms cid ≠ [] := by
  intro h
  have hm := mem_addMember_self ms cid
  rw [h] at hm
  simp at hm

theorem addMember_nodup {ms : List Nat} (cid : Nat) (h : ms.Nodup) :
    (addMember ms cid).Nodup := by
  by_cases hm : cid ∈ ms
  · simpa [addMember, hm] using h
  · simp only [addMember, if_neg hm]
    exact List.Nodup.append h (List.nodup_singleton cid) (by simpa using hm)

theorem addMember_length {ms : List Nat} {cid : Nat} (h : cid ∉ ms) :
    (addMember ms cid).length = ms.length + 1 := by
  simp [addMember, h]

/-! ### Lemmas about the connection table -/

theorem rooms_updateConn (st : ServerState) (cid : Nat) (f : Conn → Conn) :
    (updateConn st cid f).rooms = st.rooms := rfl

theorem findConn_updateConn_preserving (st : ServerState) (cid : Nat) (f : Conn → Conn)
    (m : Nat) (hid : ∀ c, (f c).id = c.id) :
    findConn (updateConn st cid f) m =
      (findConn st m).map (fun c => if c.id == cid then f c else c) := by
  unfold findConn updateConn
  induction st.conns with
  | nil => rfl
  | cons c rest ih =>
      have hgid : (if c.id == cid then f c else c).id = c.id := by
        by_cases h : c.id = cid <;> simp [h, hid]
      simp only [List.map_cons]
      by_cases hm : c.id = m
      · rw [List.find?_cons_of_pos _ (by simp only [hgid]; simpa using hm),
          List.find?_cons_of_pos _ (by simpa using hm)]
        rfl
      · rw [List.find?_cons_of_neg _ (by simp only [hgid]; simpa using hm),
          List.find?_cons_of_neg _ (by simpa using hm)]
        exact ih

theorem findConn_id {st : ServerState} {m : Nat} {c : Conn}
    (h : findConn st m = some c) : c.id = m := by
  have := List.find?_some h
  simpa using this

theorem connOpen_updateConn (st : ServerState) (cid : Nat) (f : Conn → Conn) (m : Nat)
    (hid : ∀ c, (f c).id = c.id) (hop : ∀ c, (f c).isOpen = c.isOpen) :
    connOpen (updateConn st cid f) m = connOpen st m := by
  unfold connOpen
  rw [findConn_updateConn_preserving st cid f m hid]
  cases findConn st m with
  | none => rfl
  | some c => by_cases h : c.id = cid <;> simp [h, hop]

theorem connAlive_updateConn (st : ServerState) (cid : Nat) (f : Conn → Conn) (m : Nat)
    (hid : ∀ c, (f c).id = c.id) (hal : ∀ c, (f c).isAlive = c.isAlive) :
    connAlive (updateConn st cid f) m = connAlive st m := by
  unfold connAlive
  rw [findConn_updateConn_preserving st cid f m hid]
  cases findConn st m with
  | none => rfl
  | some c => by_cases h : c.id = cid <;> simp [h, hal]

theorem findConn_updateConn_ne (st : ServerState) {cid m : Nat} (f : Conn → Conn)
    (hid : ∀ c, (f c).id = c.id) (hne : m ≠ cid) :
    findConn (updateConn st cid f) m = findConn st m := by
  rw [findConn_updateConn_preserving st cid f m hid]
  cases he : findConn st m with
  | none => rfl
  | some c =>
      have : c.id = m := findConn_id he
      simp [this, hne]

theorem conns_map_id_updateConn (st : ServerState) (cid : Nat) (f : Conn → Conn)
    (hid : ∀ c, (f c).id = c.id) :
    (updateConn st cid f).conns.map Conn.id = st.conns.map Conn.id := by
  unfold updateConn
  simp only [List.map_map]
  congr 1
  funext c
  by_cases h : c.id = cid <;> simp [Function.comp, h, hid]

theorem find?_id_of_mem_nodup {l : List Conn} {c : Conn}
    (hnd : (l.map Conn.id).Nodup) (hc : c ∈ l) :
    l.find? (fun c' => c'.id == c.id) = some c := by
  induction l with
  | nil => simp at hc
  | cons c' rest ih =>
      simp only [List.map_cons, List.nodup_cons] at hnd
      rcases List.mem_cons.mp hc with h | h
      · subst h
        simp
      · have hne : c'.id ≠ c.id := by
          intro he
          exact hnd.1 (he ▸ List.mem_map.mpr ⟨c, h, rfl⟩)
        rw [List.find?_cons_of_neg _ (by simpa using hne)]
        exact ih hnd.2 h

theorem findConn_of_mem_nodup {st : ServerState} {c : Conn}
    (hnd : (st.conns.map Conn.id).Nodup) (hc : c ∈ st.conns) :
    findConn st c.id = some c :=
  find?_id_of_mem_nodup hnd hc

/-! ### Lemmas about the close handler -/

theorem markClosed_id (c : Conn) : (markClosed c).id = c.id := rfl
theorem setAlive_id (c : Conn) : (setAlive c).id = c.id := rfl
theorem clearAlive_id (c : Conn) : (clearAlive c).id = c.id := rfl

theorem conns_handleClose (st : ServerState) (cid : Nat) :
    (handleClose st cid).conns = (updateConn st cid markClosed).conns := by
  simp only [handleClose]
  split <;> rfl

theorem findConn_congr {st1 st2 : ServerState} (h : st1.conns = st2.conns) (m : Nat) :
    findConn st1 m = findConn st2 m := by
  unfold findConn
  rw [h]

theorem findConn_handleClose (st : ServerState) (cid m : Nat) :
    findConn (handleClose st cid) m = findConn (updateConn st cid markClosed) m :=
  findConn_congr (conns_handleClose st cid) m

theorem connOpen_handleClose_self (st : ServerState) (cid : Nat) :
    connOpen (handleClose st cid) cid = false := by
  unfold connOpen
  rw [findConn_handleClose,
    findConn_updateConn_preserving st cid markClosed cid markClosed_id]
  cases he : findConn st cid with
  | none => rfl
  | some c =>
      have hc : c.id = cid := findConn_id he
      simp [hc, markClosed]

theorem findConn_handleClose_ne (st : ServerState) {cid m : Nat} (hne : m ≠ cid) :
    findConn (handleClose st cid) m = findConn st m := by
  rw [findConn_handleClose]
  exact findConn_updateConn_ne st markClosed markClosed_id hne

theorem conns_map_id_handleClose (st : ServerState) (cid : Nat) :
    (handleClose st cid).conns.map Conn.id = st.conns.map Conn.id := by
  rw [conns_handleClose]
  exact conns_map_id_updateConn st cid markClosed markClosed_id

/-- The rooms table after a close: either untouched, or the closing
connection's room erased/deleted. -/
theorem rooms_handleClose (st : ServerState) (cid : Nat) :
    (handleClose st cid).rooms =
      if keyTruthy (connRoom st cid) && hasRoom st.rooms (connRoom st cid) then
        (if (lookupRoom (mapRoom st.rooms (connRoom st cid) (fun ms => ms.erase cid))
              (connRoom st cid)).getD [] = [] then
          removeRoom (mapRoom st.rooms (connRoom st cid) (fun ms => ms.erase cid))
            (connRoom st cid)
        else mapRoom st.rooms (connRoom st cid) (fun ms => ms.erase cid))
      else st.rooms := by
  simp only [handleClose, rooms_updateConn]
  split <;> rfl

theorem mem_membersOf_handleClose {st : ServerState} {cid : Nat} {k : RoomKey} {x : Nat}
    (h : x ∈ membersOf (handleClose st cid) k) : x ∈ membersOf st k := by
  unfold membersOf at h ⊢
  rw [rooms_handleClose] at h
  by_cases hc : keyTruthy (connRoom st cid) && hasRoom st.rooms (connRoom st cid)
  · rw [if_pos hc] at h
    by_cases hk : k = connRoom st cid
    · subst hk
      by_cases he : (lookupRoom (mapRoom st.rooms (connRoom st cid)
          (fun ms => ms.erase cid)) (connRoom st cid)).getD [] = []
      · rw [if_pos he, lookupRoom_removeRoom_self] at h
        simp at h
      · rw [if_neg he, lookupRoom_mapRoom_self] at h
        cases hl : lookupRoom st.rooms (connRoom st cid) with
        | none => rw [hl] at h; simp at h
        | some ms =>
            rw [hl] at h
            simp only [Option.map_some', Option.getD_some] at h
            simp only [Option.getD_some]
            exact List.mem_of_mem_erase h
    · by_cases he : (lookupRoom (mapRoom st.rooms (connRoom st cid)
          (fun ms => ms.erase cid)) (connRoom st cid)).getD [] = []
      · rw [if_pos he, lookupRoom_removeRoom_ne _ hk, lookupRoom_mapRoom_ne _ _ hk] at h
        exact h
      · rw [if_neg he, lookupRoom_mapRoom_ne _ _ hk] at h
        exact h
  · rw [if_neg hc] at h
    exact h

/-! ### Branch lemmas for the message handler -/

theorem relayType_ne_join {data : Json} (h : isRelayType data = true) :
    data.get "type" ≠ some (.str "join-room") := by
  intro he
  unfold isRelayType at h
  rw [he] at h
  exact absurd h (by decide)

/-- The join-branch result, spelled out. -/
theorem handleMessage_join (st : ServerState) (cid : Nat) (data : Json)
    (hty : data.get "type" = some (.str "join-room")) :
    handleMessage st cid (some data) =
      (updateConn { st with rooms := joinRooms st.rooms (data.get "roomId") cid } cid
         (fun c => { c with roomId := data.get "roomId",
                            senderId := data.get "senderId" }),
       [(cid, joinedAck (data.get "roomId")
          ((lookupRoom (joinRooms st.rooms (data.get "roomId") cid)
             (data.get "roomId")).getD []).length)]) := by
  simp only [handleMessage]
  rw [if_pos hty]

/-- The relay-branch result, spelled out. -/
theorem handleMessage_relay (st : ServerState) (cid : Nat) (data : Json)
    (hty : isRelayType data = true) :
    handleMessage st cid (some data) =
      (st, match lookupRoom st.rooms (data.get "roomId") with
           | none => []
           | some ms => (ms.filter (fun m => m != cid && connOpen st m)).map
               (fun m => (m, data))) := by
  simp only [handleMessage]
  rw [if_neg (relayType_ne_join hty), if_pos hty]
  cases lookupRoom st.rooms (data.get "roomId") <;> rfl

/-- A frame that is neither a join nor a negotiation type is dropped. -/
theorem handleMessage_other (st : ServerState) (cid : Nat) (data : Json)
    (h1 : data.get "type" ≠ some (.str "join-room"))
    (h2 : isRelayType data = false) :
    handleMessage st cid (some data) = (st, []) := by
  simp only [handleMessage]
  rw [if_neg h1, if_neg (by simp [h2])]

theorem joinRooms_keys (rooms : List (RoomKey × List Nat)) (key : RoomKey) (cid : Nat) :
    (joinRooms rooms key cid).map Prod.fst =
      if hasRoom rooms key then rooms.map Prod.fst
      else rooms.map Prod.fst ++ [key] := by
  unfold joinRooms
  rw [mapRoom_keys]
  split <;> simp

theorem lookupRoom_joinRooms_self (rooms : List (RoomKey × List Nat)) (key : RoomKey)
    (cid : Nat) :
    lookupRoom (joinRooms rooms key cid) key =
      some (addMember ((lookupRoom rooms key).getD []) cid) := by
  unfold joinRooms
  rw [lookupRoom_mapRoom_self]
  by_cases h : hasRoom rooms key
  · rw [if_pos h]
    unfold hasRoom at h
    cases hl : lookupRoom rooms key with
    | none => rw [hl] at h; simp at h
    | some ms => simp
  · rw [if_neg h]
    unfold hasRoom at h
    have hl : lookupRoom rooms key = none := Option.not_isSome_iff_eq_none.mp (by simpa using h)
    rw [lookupRoom_append_of_none hl, hl]
    simp

theorem lookupRoom_joinRooms_ne (rooms : List (RoomKey × List Nat)) {key k : RoomKey}
    (cid : Nat) (hne : k ≠ key) :
    lookupRoom (joinRooms rooms key cid) k = lookupRoom rooms k := by
  unfold joinRooms
  rw [lookupRoom_mapRoom_ne _ _ hne]
  split
  · rfl
  · exact lookupRoom_append_ne hne []

/-! ### Preservation of well-formedness -/

theorem WF_initState : WF initState := by
  refine ⟨List.nodup_nil, List.nodup_nil, ?_, ?_⟩ <;> intro r hr <;> simp [initState] at hr

theorem WF_updateConn {st : ServerState} (hw : WF st) (cid : Nat) (f : Conn → Conn)
    (hid : ∀ c, (f c).id = c.id) : WF (updateConn st cid f) := by
  obtain ⟨h1, h2, h3, h4⟩ := hw
  refine ⟨?_, h2, h3, h4⟩
  rw [conns_map_id_updateConn st cid f hid]
  exact h1

theorem WF_handleClose {st : ServerState} (hw : WF st) (cid : Nat) :
    WF (handleClose st cid) := by
  obtain ⟨h1, h2, h3, h4⟩ := hw
  refine ⟨?_, ?_, ?_, ?_⟩
  · rw [conns_map_id_handleClose]
    exact h1
  · rw [rooms_handleClose]
    split
    · split
      · have hs := removeRoom_keys_sublist
          (mapRoom st.rooms (connRoom st cid) (fun ms => ms.erase cid)) (connRoom st cid)
        rw [mapRoom_keys] at hs
        exact hs.nodup h2
      · rw [mapRoom_keys]
        exact h2
    · exact h2
  · rw [rooms_handleClose]
    split
    case isTrue hcond =>
      intro r hr
      split at hr
      case isTrue he =>
        obtain ⟨hr1, hr2⟩ := mem_removeRoom.mp hr
        rcases mem_mapRoom hr1 with ⟨ms, _, he2⟩ | ⟨hm, _⟩
        · exact absurd (by rw [he2]) hr2
        · exact h3 r hm
      case isFalse he =>
        rcases mem_mapRoom hr with ⟨ms, hm, he2⟩ | ⟨hm, _⟩
        · subst he2
          intro hnil
          apply he
          rw [lookupRoom_mapRoom_self, lookupRoom_of_mem_nodup h2 hm]
          simpa using hnil
        · exact h3 r hm
    case isFalse => exact h3
  · rw [rooms_handleClose]
    split
    case isTrue hcond =>
      intro r hr
      split at hr
      case isTrue he =>
        obtain ⟨hr1, _⟩ := mem_removeRoom.mp hr
        rcases mem_mapRoom hr1 with ⟨ms, hm, he2⟩ | ⟨hm, _⟩
        · subst he2
          exact (h4 _ hm).erase cid
        · exact h4 r hm
      case isFalse he =>
        rcases mem_mapRoom hr with ⟨ms, hm, he2⟩ | ⟨hm, _⟩
        · subst he2
          exact (h4 _ hm).erase cid
        · exact h4 r hm
    case isFalse => exact h4

theorem WF_handlePong {st : ServerState} (hw : WF st) (cid : Nat) :
    WF (handlePong st cid) :=
  WF_updateConn hw cid setAlive setAlive_id

theorem WF_tickConn {st : ServerState} (hw : WF st) (cid : Nat) :
    WF (tickConn st cid).1 := by
  unfold tickConn
  split
  · split
    · exact WF_updateConn hw cid clearAlive clearAlive_id
    · exact WF_handleClose hw cid
  · exact hw

theorem WF_runTicks {st : ServerState} (hw : WF st) (ids : List Nat) :
    WF (runTicks st ids).1 := by
  induction ids generalizing st with
  | nil => exact hw
  | cons a rest ih => exact ih (WF_tickConn hw a)

theorem WF_handleMessage {st : ServerState} (hw : WF st) (cid : Nat)
    (frame : Option Json) : WF (handleMessage st cid frame).1 := by
  obtain ⟨h1, h2, h3, h4⟩ := hw
  match frame with
  | none => exact ⟨h1, h2, h3, h4⟩
  | some data =>
    by_cases hty : data.get "type" = some (.str "join-room")
    · rw [handleMessage_join st cid data hty]
      dsimp only
      refine ⟨?_, ?_, ?_, ?_⟩
      · rw [conns_map_id_updateConn
          { st with rooms := joinRooms st.rooms (data.get "roomId") cid } cid
          (fun c => { c with roomId := data.get "roomId",
                             senderId := data.get "senderId" }) (fun c => rfl)]
        exact h1
      · show ((joinRooms st.rooms (data.get "roomId") cid).map Prod.fst).Nodup
        rw [joinRooms_keys]
        split
        · exact h2
        · rename_i hhas
          refine h2.append (List.nodup_singleton _) ?_
          intro a ha hb
          rw [List.mem_singleton] at hb
          subst hb
          have hl : lookupRoom st.rooms (data.get "roomId") = none :=
            Option.not_isSome_iff_eq_none.mp (by simpa [hasRoom] using hhas)
          exact lookupRoom_none_iff.mp hl ha
      · intro r hr
        have hr' : r ∈ mapRoom (if hasRoom st.rooms (data.get "roomId") then st.rooms
            else st.rooms ++ [(data.get "roomId", [])]) (data.get "roomId")
            (fun ms => addMember ms cid) := hr
        rcases mem_mapRoom hr' with ⟨ms, _, he2⟩ | ⟨hm, hne⟩
        · rw [he2]
          exact addMember_ne_nil ms cid
        · split at hm
          · exact h3 r hm
          · rcases List.mem_append.mp hm with hm | hm
            · exact h3 r hm
            · rw [List.mem_singleton] at hm
              exact absurd (by rw [hm]) hne
      · intro r hr
        have hr' : r ∈ mapRoom (if hasRoom st.rooms (data.get "roomId") then st.rooms
            else st.rooms ++ [(data.get "roomId", [])]) (data.get "roomId")
            (fun ms => addMember ms cid) := hr
        rcases mem_mapRoom hr' with ⟨ms, hm, he2⟩ | ⟨hm, _⟩
        · rw [he2]
          refine addMember_nodup cid ?_
          split at hm
          · exact h4 _ hm
          · rcases List.mem_append.mp hm with hm | hm
            · exact h4 _ hm
            · rw [List.mem_singleton] at hm
              have hms : ms = [] := (Prod.ext_iff.mp hm).2
              rw [hms]
              exact List.nodup_nil
        · split at hm
          · exact h4 r hm
          · rcases List.mem_append.mp hm with hm | hm
            · exact h4 r hm
            · rw [List.mem_singleton] at hm
              have h0 : r.2 = ([] : List Nat) := by rw [hm]
              rw [h0]
              exact List.nodup_nil
    · by_cases hrel : isRelayType data = true
      · rw [handleMessage_relay st cid data hrel]
        exact ⟨h1, h2, h3, h4⟩
      · rw [handleMessage_other st cid data hty (by simpa using hrel)]
        exact ⟨h1, h2, h3, h4⟩

theorem step_connect (st : ServerState) (cid : Nat) :
    step st (.connect cid) =
      if st.conns.any (fun c => c.id == cid) then (st, [])
      else ({ st with conns := st.conns ++ [newConn cid] }, []) := rfl

theorem step_message (st : ServerState) (cid : Nat) (frame : Option Json) :
    step st (.message cid frame) =
      if connOpen st cid then handleMessage st cid frame else (st, []) := rfl

theorem step_pong (st : ServerState) (cid : Nat) :
    step st (.pong cid) =
      if connOpen st cid then (handlePong st cid, []) else (st, []) := rfl

theorem step_close (st : ServerState) (cid : Nat) :
    step st (.close cid) =
      if connOpen st cid then (handleClose st cid, []) else (st, []) := rfl

theorem step_tick (st : ServerState) :
    step st .tick = ((heartbeatTick st).1, []) := rfl

theorem WF_step {st : ServerState} (hw : WF st) (ev : Event) : WF (step st ev).1 := by
  obtain ⟨h1, h2, h3, h4⟩ := hw
  match ev with
  | .connect cid =>
      rw [step_connect]
      by_cases hany : st.conns.any (fun c => c.id == cid) = true
      · rw [if_pos hany]
        exact ⟨h1, h2, h3, h4⟩
      · rw [if_neg hany]
        refine ⟨?_, h2, h3, h4⟩
        show ((st.conns ++ [newConn cid]).map Conn.id).Nodup
        rw [List.map_append]
        refine h1.append (by simp [newConn]) ?_
        intro a ha hb
        simp only [List.map_cons, List.map_nil, List.mem_singleton, newConn] at hb
        subst hb
        obtain ⟨c, hc, he⟩ := List.mem_map.mp ha
        exact hany (List.any_of_mem hc (by simp [he]))
  | .message cid frame =>
      rw [step_message]
      by_cases ho : connOpen st cid = true
      · rw [if_pos ho]
        exact WF_handleMessage ⟨h1, h2, h3, h4⟩ cid frame
      · rw [if_neg ho]
        exact ⟨h1, h2, h3, h4⟩
  | .pong cid =>
      rw [step_pong]
      by_cases ho : connOpen st cid = true
      · rw [if_pos ho]
        exact WF_handlePong ⟨h1, h2, h3, h4⟩ cid
      · rw [if_neg ho]
        exact ⟨h1, h2, h3, h4⟩
  | .close cid =>
      rw [step_close]
      by_cases ho : connOpen st cid = true
      · rw [if_pos ho]
        exact WF_handleClose ⟨h1, h2, h3, h4⟩ cid
      · rw [if_neg ho]
        exact ⟨h1, h2, h3, h4⟩
  | .tick =>
      rw [step_tick]
      exact WF_runTicks ⟨h1, h2, h3, h4⟩ _

theorem WF_run {st : ServerState} (hw : WF st) (evs : List Event) :
    WF (run st evs) := by
  induction evs generalizing st with
  | nil => exact hw
  | cons e rest ih => exact ih (WF_step hw e)

/-! ### Heartbeat lemmas -/

theorem runTicks_cons (st : ServerState) (a : Nat) (rest : List Nat) :
    runTicks st (a :: rest) =
      ((runTicks (tickConn st a).1 rest).1,
       (if (tickConn st a).2.1 then [a] else []) ++ (runTicks (tickConn st a).1 rest).2.1,
       (if (tickConn st a).2.2 then [a] else []) ++ (runTicks (tickConn st a).1 rest).2.2) :=
  rfl

theorem runTicks_append (st : ServerState) (l1 l2 : List Nat) :
    runTicks st (l1 ++ l2) =
      ((runTicks (runTicks st l1).1 l2).1,
       (runTicks st l1).2.1 ++ (runTicks (runTicks st l1).1 l2).2.1,
       (runTicks st l1).2.2 ++ (runTicks (runTicks st l1).1 l2).2.2) := by
  induction l1 generalizing st with
  | nil => simp [runTicks]
  | cons a rest ih =>
      simp only [List.cons_append, runTicks_cons, ih, List.append_assoc]

theorem findConn_tickConn_ne (st : ServerState) {x m : Nat} (hne : m ≠ x) :
    findConn (tickConn st x).1 m = findConn st m := by
  unfold tickConn
  by_cases h1 : connOpen st x = true
  · rw [if_pos h1]
    by_cases h2 : connAlive st x = true
    · rw [if_pos h2]
      exact findConn_updateConn_ne st clearAlive clearAlive_id hne
    · rw [if_neg h2]
      exact findConn_handleClose_ne st hne
  · rw [if_neg h1]

theorem findConn_runTicks_notmem (st : ServerState) {ids : List Nat} {m : Nat}
    (h : m ∉ ids) : findConn (runTicks st ids).1 m = findConn st m := by
  induction ids generalizing st with
  | nil => rfl
  | cons a rest ih =>
      rw [runTicks_cons]
      have hma : m ≠ a := fun he => h (he ▸ List.mem_cons_self a rest)
      have hmr : m ∉ rest := fun hm => h (List.mem_cons_of_mem a hm)
      show findConn (runTicks (tickConn st a).1 rest).1 m = findConn st m
      rw [ih _ hmr, findConn_tickConn_ne st hma]

theorem connOpen_false_tickConn (st : ServerState) {x m : Nat}
    (h : connOpen st m = false) : connOpen (tickConn st x).1 m = false := by
  by_cases hmx : m = x
  · subst hmx
    unfold tickConn
    rw [if_neg (by simp [h])]
    exact h
  · unfold connOpen
    rw [findConn_tickConn_ne st hmx]
    exact h

theorem connOpen_false_runTicks (st : ServerState) {ids : List Nat} {m : Nat}
    (h : connOpen st m = false) : connOpen (runTicks st ids).1 m = false := by
  induction ids generalizing st with
  | nil => exact h
  | cons a rest ih =>
      rw [runTicks_cons]
      exact ih _ (connOpen_false_tickConn st h)

theorem not_mem_membersOf_tickConn (st : ServerState) {x m : Nat} {k : RoomKey}
    (h : m ∉ membersOf st k) : m ∉ membersOf (tickConn st x).1 k := by
  unfold tickConn
  by_cases h1 : connOpen st x = true
  · rw [if_pos h1]
    by_cases h2 : connAlive st x = true
    · rw [if_pos h2]
      simpa only [membersOf, rooms_updateConn] using h
    · rw [if_neg h2]
      intro hmem
      exact h (mem_membersOf_handleClose hmem)
  · rw [if_neg h1]
    exact h

theorem not_mem_membersOf_runTicks (st : ServerState) {ids : List Nat} {m : Nat}
    {k : RoomKey} (h : m ∉ membersOf st k) :
    m ∉ membersOf (runTicks st ids).1 k := by
  induction ids generalizing st with
  | nil => exact h
  | cons a rest ih =>
      rw [runTicks_cons]
      exact ih _ (not_mem_membersOf_tickConn st h)

theorem runTicks_terminated_subset (st : ServerState) (ids : List Nat) :
    (runTicks st ids).2.1 ⊆ ids := by
  induction ids generalizing st with
  | nil => simp [runTicks]
  | cons a rest ih =>
      rw [runTicks_cons]
      intro y hy
      rcases List.mem_append.mp hy with hy | hy
      · split at hy
        · rw [List.mem_singleton] at hy
          exact hy ▸ List.mem_cons_self a rest
        · simp at hy
      · exact List.mem_cons_of_mem a (ih _ hy)

theorem runTicks_pinged_subset (st : ServerState) (ids : List Nat) :
    (runTicks st ids).2.2 ⊆ ids := by
  induction ids generalizing st with
  | nil => simp [runTicks]
  | cons a rest ih =>
      rw [runTicks_cons]
      intro y hy
      rcases List.mem_append.mp hy with hy | hy
      · split at hy
        · rw [List.mem_singleton] at hy
          exact hy ▸ List.mem_cons_self a rest
        · simp at hy
      · exact List.mem_cons_of_mem a (ih _ hy)

theorem not_mem_membersOf_handleClose_self {st : ServerState} {cid : Nat}
    (hnd : ∀ r ∈ st.rooms, r.2.Nodup) (ht : keyTruthy (connRoom st cid) = true) :
    cid ∉ membersOf (handleClose st cid) (connRoom st cid) := by
  unfold membersOf
  rw [rooms_handleClose]
  by_cases hhas : hasRoom st.rooms (connRoom st cid) = true
  · rw [if_pos (by simp [ht, hhas])]
    by_cases he : (lookupRoom (mapRoom st.rooms (connRoom st cid)
        (fun ms => ms.erase cid)) (connRoom st cid)).getD [] = []
    · rw [if_pos he, lookupRoom_removeRoom_self]
      simp
    · rw [if_neg he, lookupRoom_mapRoom_self]
      cases hl : lookupRoom st.rooms (connRoom st cid) with
      | none => simp
      | some ms =>
          simp only [Option.map_some', Option.getD_some]
          exact (hnd _ (mem_of_lookupRoom hl)).not_mem_erase
  · rw [if_neg (by simp [hhas])]
    have hl : lookupRoom st.rooms (connRoom st cid) = none :=
      Option.not_isSome_iff_eq_none.mp (by simpa [hasRoom] using hhas)
    rw [hl]
    simp

/-- The live-client snapshot iterated by the heartbeat contains each open
connection's id exactly once; split it around that id. -/
theorem liveIds_split {st : ServerState} {c : Conn} (hw : WF st)
    (hc : c ∈ st.conns) (hopen : c.isOpen = true) :
    ∃ l1 l2,
      (st.conns.filter (·.isOpen)).map (·.id) = l1 ++ c.id :: l2 ∧
      c.id ∉ l1 ∧ c.id ∉ l2 := by
  have hmem : c.id ∈ (st.conns.filter (·.isOpen)).map (·.id) :=
    List.mem_map.mpr ⟨c, List.mem_filter.mpr ⟨hc, by simp [hopen]⟩, rfl⟩
  obtain ⟨l1, l2, hsplit⟩ := List.append_of_mem hmem
  have hsub : (st.conns.filter (·.isOpen)).Sublist st.conns := List.filter_sublist _
  have hnd : ((st.conns.filter (·.isOpen)).map (·.id)).Nodup :=
    (hsub.map (fun c : Conn => c.id)).nodup hw.1
  rw [hsplit] at hnd
  rw [List.nodup_append] at hnd
  obtain ⟨hd1, hd2, hdisj⟩ := hnd
  rw [List.nodup_cons] at hd2
  exact ⟨l1, l2, hsplit, fun hm => hdisj hm (List.mem_cons_self _ _), hd2.1⟩

/-- A live connection whose flag was not refreshed since the previous tick is
terminated by this tick: closed, reported terminated, not probed again, and
(if it had recorded a truthy room) removed from that room's member set. -/
theorem tick_evicts {st : ServerState} {c : Conn} (hw : WF st) (hc : c ∈ st.conns)
    (hopen : c.isOpen = true) (hdead : c.isAlive = false) :
    connOpen (heartbeatTick st).1 c.id = false ∧
    c.id ∈ (heartbeatTick st).2.1 ∧
    c.id ∉ (heartbeatTick st).2.2 ∧
    (keyTruthy c.roomId = true → c.id ∉ membersOf (heartbeatTick st).1 c.roomId) := by
  obtain ⟨l1, l2, hsplit, hn1, hn2⟩ := liveIds_split hw hc hopen
  unfold heartbeatTick
  rw [hsplit, runTicks_append, runTicks_cons]
  have hfA : findConn (runTicks st l1).1 c.id = some c := by
    rw [findConn_runTicks_notmem st hn1]
    exact findConn_of_mem_nodup hw.1 hc
  have hopenA : connOpen (runTicks st l1).1 c.id = true := by
    unfold connOpen
    rw [hfA]
    simpa using hopen
  have haliveA : connAlive (runTicks st l1).1 c.id = false := by
    unfold connAlive
    rw [hfA]
    simpa using hdead
  have hroomA : connRoom (runTicks st l1).1 c.id = c.roomId := by
    unfold connRoom
    rw [hfA]
    rfl
  have htc : tickConn (runTicks st l1).1 c.id =
      (handleClose (runTicks st l1).1 c.id, true, false) := by
    unfold tickConn
    rw [if_pos hopenA, if_neg (by simp [haliveA])]
  rw [htc]
  refine ⟨?_, ?_, ?_, ?_⟩
  · exact connOpen_false_runTicks _ (connOpen_handleClose_self _ _)
  · exact List.mem_append.mpr (Or.inr (List.mem_append.mpr (Or.inl (by simp))))
  · intro hmem
    rcases List.mem_append.mp hmem with hmem | hmem
    · exact hn1 (runTicks_pinged_subset st l1 hmem)
    · rcases List.mem_append.mp hmem with hmem | hmem
      · simp at hmem
      · exact hn2 (runTicks_pinged_subset _ l2 hmem)
  · intro ht
    have hwA : WF (runTicks st l1).1 := WF_runTicks hw l1
    have hstep : c.id ∉ membersOf (handleClose (runTicks st l1).1 c.id) c.roomId := by
      have ht' : keyTruthy (connRoom (runTicks st l1).1 c.id) = true := by
        rw [hroomA]
        exact ht
      have hself := not_mem_membersOf_handleClose_self hwA.2.2.2 ht'
      rw [hroomA] at hself
      exact hself
    exact not_mem_membersOf_runTicks _ hstep

/-- A live connection whose flag is set survives the tick: it stays open, its
flag is cleared, and it is probed (and not terminated). -/
theorem tick_survives {st : ServerState} {c : Conn} (hw : WF st) (hc : c ∈ st.conns)
    (hopen : c.isOpen = true) (halive : c.isAlive = true) :
    connOpen (heartbeatTick st).1 c.id = true ∧
    connAlive (heartbeatTick st).1 c.id = false ∧
    c.id ∈ (heartbeatTick st).2.2 ∧
    c.id ∉ (heartbeatTick st).2.1 := by
  obtain ⟨l1, l2, hsplit, hn1, hn2⟩ := liveIds_split hw hc hopen
  unfold heartbeatTick
  rw [hsplit, runTicks_append, runTicks_cons]
  have hfA : findConn (runTicks st l1).1 c.id = some c := by
    rw [findConn_runTicks_notmem st hn1]
    exact findConn_of_mem_nodup hw.1 hc
  have hopenA : connOpen (runTicks st l1).1 c.id = true := by
    unfold connOpen
    rw [hfA]
    simpa using hopen
  have haliveA : connAlive (runTicks st l1).1 c.id = true := by
    unfold connAlive
    rw [hfA]
    simpa using halive
  have htc : tickConn (runTicks st l1).1 c.id =
      (updateConn (runTicks st l1).1 c.id clearAlive, false, true) := by
    unfold tickConn
    rw [if_pos hopenA, if_pos haliveA]
  rw [htc]
  have hfB : findConn (updateConn (runTicks st l1).1 c.id clearAlive) c.id =
      some (clearAlive c) := by
    rw [findConn_updateConn_preserving _ c.id clearAlive c.id clearAlive_id, hfA]
    simp
  refine ⟨?_, ?_, ?_, ?_⟩
  · unfold connOpen
    rw [findConn_runTicks_notmem _ hn2, hfB]
    simpa using hopen
  · unfold connAlive
    rw [findConn_runTicks_notmem _ hn2, hfB]
    rfl
  · exact List.mem_append.mpr (Or.inr (List.mem_append.mpr (Or.inl (by simp))))
  · intro hmem
    rcases List.mem_append.mp hmem with hmem | hmem
    · exact hn1 (runTicks_terminated_subset st l1 hmem)
    · rcases List.mem_append.mp hmem with hmem | hmem
      · simp at hmem
      · exact hn2 (runTicks_terminated_subset _ l2 hmem)

/-! ### Stale membership: a closed connection left in a room's member set -/

/-- The record of connection `cid` is retained and closed, and `cid` is still
listed in the member set of room `k`. -/
def StaleIn (st : ServerState) (cid : Nat) (k : RoomKey) : Prop :=
  (∃ c ∈ st.conns, c.id = cid ∧ c.isOpen = false) ∧ cid ∈ membersOf st k

theorem stale_connOpen_false {st : ServerState} {cid : Nat} {k : RoomKey}
    (hw : WF st) (hs : StaleIn st cid k) : connOpen st cid = false := by
  obtain ⟨⟨c, hc, hcid, hop⟩, _⟩ := hs
  unfold connOpen
  rw [← hcid, findConn_of_mem_nodup hw.1 hc]
  simpa using hop

theorem stale_updateConn {st : ServerState} {cid : Nat} {k : RoomKey}
    (hs : StaleIn st cid k) (x : Nat) (f : Conn → Conn)
    (hid : ∀ c, (f c).id = c.id)
    (hop : ∀ c, c.isOpen = false → (f c).isOpen = false) :
    StaleIn (updateConn st x f) cid k := by
  obtain ⟨⟨c, hc, hcid, hopn⟩, hm⟩ := hs
  refine ⟨⟨if c.id == x then f c else c, List.mem_map.mpr ⟨c, hc, rfl⟩, ?_, ?_⟩, hm⟩
  · by_cases h : c.id = x
    · rw [if_pos (by simp [h]), hid]
      exact hcid
    · rw [if_neg (by simp [h])]
      exact hcid
  · by_cases h : c.id = x
    · rw [if_pos (by simp [h])]
      exact hop c hopn
    · rw [if_neg (by simp [h])]
      exact hopn

theorem stale_handleClose {st : ServerState} {cid : Nat} {k : RoomKey}
    (hs : StaleIn st cid k) {x : Nat} (hne : cid ≠ x) :
    StaleIn (handleClose st x) cid k := by
  obtain ⟨hex, hm⟩ := hs
  constructor
  · obtain ⟨⟨c', hc', hcid', hop'⟩, _⟩ :=
      stale_updateConn ⟨hex, hm⟩ x markClosed markClosed_id (fun c _ => rfl)
    exact ⟨c', (conns_handleClose st x).symm ▸ hc', hcid', hop'⟩
  · unfold membersOf at hm ⊢
    rw [rooms_handleClose]
    by_cases hcond : (keyTruthy (connRoom st x) && hasRoom st.rooms (connRoom st x)) = true
    · rw [if_pos hcond]
      by_cases hk : k = connRoom st x
      · subst hk
        cases hl : lookupRoom st.rooms (connRoom st x) with
        | none => rw [hl] at hm; simp at hm
        | some ms =>
            rw [hl] at hm
            simp only [Option.getD_some] at hm
            have hmem' : cid ∈ ms.erase x := (List.mem_erase_of_ne hne).mpr hm
            have hlook1 : lookupRoom (mapRoom st.rooms (connRoom st x)
                (fun ms => ms.erase x)) (connRoom st x) = some (ms.erase x) := by
              rw [lookupRoom_mapRoom_self, hl]
              rfl
            by_cases hrem : (lookupRoom (mapRoom st.rooms (connRoom st x)
                (fun ms => ms.erase x)) (connRoom st x)).getD [] = []
            · rw [hlook1] at hrem
              simp only [Option.getD_some] at hrem
              rw [hrem] at hmem'
              simp at hmem'
            · rw [if_neg hrem, hlook1]
              simpa using hmem'
      · by_cases hrem : (lookupRoom (mapRoom st.rooms (connRoom st x)
            (fun ms => ms.erase x)) (connRoom st x)).getD [] = []
        · rw [if_pos hrem, lookupRoom_removeRoom_ne _ hk, lookupRoom_mapRoom_ne _ _ hk]
          exact hm
        · rw [if_neg hrem, lookupRoom_mapRoom_ne _ _ hk]
          exact hm
    · rw [if_neg hcond]
      exact hm

theorem stale_handleMessage {st : ServerState} {cid : Nat} {k : RoomKey}
    (hs : StaleIn st cid k) (x : Nat) (frame : Option Json) :
    StaleIn (handleMessage st x frame).1 cid k := by
  match frame with
  | none => exact hs
  | some data =>
      by_cases hty : data.get "type" = some (.str "join-room")
      · rw [handleMessage_join st x data hty]
        dsimp only
        obtain ⟨hex, hm⟩ := hs
        have hs2 : StaleIn { st with rooms := joinRooms st.rooms (data.get "roomId") x }
            cid k := by
          refine ⟨hex, ?_⟩
          unfold membersOf at hm ⊢
          show cid ∈ (lookupRoom (joinRooms st.rooms (data.get "roomId") x) k).getD []
          by_cases hk : k = data.get "roomId"
          · subst hk
            rw [lookupRoom_joinRooms_self, Option.getD_some]
            exact mem_addMember.mpr (Or.inl hm)
          · rw [lookupRoom_joinRooms_ne _ _ hk]
            exact hm
        exact stale_updateConn hs2 x _ (fun c => rfl) (fun c h => h)
      · by_cases hrel : isRelayType data = true
        · rw [handleMessage_relay st x data hrel]
          exact hs
        · rw [handleMessage_other st x data hty (by simpa using hrel)]
          exact hs

theorem stale_tickConn {st : ServerState} {cid : Nat} {k : RoomKey}
    (hw : WF st) (hs : StaleIn st cid k) (x : Nat) :
    StaleIn (tickConn st x).1 cid k := by
  unfold tickConn
  by_cases h1 : connOpen st x = true
  · rw [if_pos h1]
    have hne : cid ≠ x := by
      intro he
      rw [← he, stale_connOpen_false hw hs] at h1
      exact absurd h1 (by simp)
    by_cases h2 : connAlive st x = true
    · rw [if_pos h2]
      exact stale_updateConn hs x clearAlive clearAlive_id (fun c h => h)
    · rw [if_neg h2]
      exact stale_handleClose hs hne
  · rw [if_neg h1]
    exact hs

theorem stale_runTicks {st : ServerState} {cid : Nat} {k : RoomKey}
    (hw : WF st) (hs : StaleIn st cid k) (ids : List Nat) :
    StaleIn (runTicks st ids).1 cid k := by
  induction ids generalizing st with
  | nil => exact hs
  | cons a rest ih =>
      rw [runTicks_cons]
      exact ih (WF_tickConn hw a) (stale_tickConn hw hs a)

theorem stale_step {st : ServerState} {cid : Nat} {k : RoomKey} (hw : WF st)
    (hs : StaleIn st cid k) (ev : Event) : StaleIn (step st ev).1 cid k := by
  match ev with
  | .connect x =>
      rw [step_connect]
      by_cases hany : st.conns.any (fun c => c.id == x) = true
      · rw [if_pos hany]
        exact hs
      · rw [if_neg hany]
        obtain ⟨⟨c, hc, hcid, hopn⟩, hm⟩ := hs
        exact ⟨⟨c, List.mem_append.mpr (Or.inl hc), hcid, hopn⟩, hm⟩
  | .message x frame =>
      rw [step_message]
      by_cases ho : connOpen st x = true
      · rw [if_pos ho]
        exact stale_handleMessage hs x frame
      · rw [if_neg ho]
        exact hs
  | .pong x =>
      rw [step_pong]
      by_cases ho : connOpen st x = true
      · rw [if_pos ho]
        exact stale_updateConn hs x setAlive setAlive_id (fun c h => h)
      · rw [if_neg ho]
        exact hs
  | .close x =>
      rw [step_close]
      by_cases ho : connOpen st x = true
      · rw [if_pos ho]
        have hne : cid ≠ x := by
          intro he
          rw [← he, stale_connOpen_false hw hs] at ho
          exact absurd ho (by simp)
        exact stale_handleClose hs hne
      · rw [if_neg ho]
        exact hs
  | .tick =>
      rw [step_tick]
      exact stale_runTicks hw hs _

theorem stale_run {st : ServerState} {cid : Nat} {k : RoomKey} (hw : WF st)
    (hs : StaleIn st cid k) (evs : List Event) : StaleIn (run st evs) cid k := by
  induction evs generalizing st with
  | nil => exact hs
  | cons e rest ih => exact ih (WF_step hw e) (stale_step hw hs e)

theorem lookupRoom_ne_none_of_mem_membersOf {st : ServerState} {cid : Nat}
    {k : RoomKey} (h : cid ∈ membersOf st k) : lookupRoom st.rooms k ≠ none := by
  intro hn
  unfold membersOf at h
  rw [hn] at h
  simp at h

/-! ### Concrete fixtures for witnesses and counterexamples -/

/-- `{type: "join-room", roomId: <room>}`. -/
def joinMsg (room : String) : Json :=
  .obj (.cons "type" (.str "join-room") (.cons "roomId" (.str room) .nil))

/-- `{type: "offer", roomId: <room>, senderId: "operator", payload: <p>}`. -/
def offerMsg (room p : String) : Json :=
  .obj (.cons "type" (.str "offer") (.cons "roomId" (.str room)
    (.cons "senderId" (.str "operator") (.cons "payload" (.str p) .nil))))

def oneConnState : ServerState := ⟨[newConn 0], []⟩

/-- Two open connections both members of room "r1". -/
def twoInRoomState : ServerState :=
  ⟨[newConn 0, newConn 1], [(some (.str "r1"), [0, 1])]⟩

/-- Member sets stay duplicate-free across a join. -/
theorem joinRooms_nodup {rooms : List (RoomKey × List Nat)} (key : RoomKey) (cid : Nat)
    (hnd : ∀ r ∈ rooms, r.2.Nodup) : ∀ r ∈ joinRooms rooms key cid, r.2.Nodup := by
  intro r hr
  have hr' : r ∈ mapRoom (if hasRoom rooms key then rooms else rooms ++ [(key, [])])
      key (fun ms => addMember ms cid) := hr
  rcases mem_mapRoom hr' with ⟨ms, hm, he2⟩ | ⟨hm, _⟩
  · rw [he2]
    refine addMember_nodup cid ?_
    split at hm
    · exact hnd _ hm
    · rcases List.mem_append.mp hm with hm | hm
      · exact hnd _ hm
      · rw [List.mem_singleton] at hm
        have hms : ms = [] := (Prod.ext_iff.mp hm).2
        rw [hms]
        exact List.nodup_nil
  · split at hm
    · exact hnd r hm
    · rcases List.mem_append.mp hm with hm | hm
      · exact hnd r hm
      · rw [List.mem_singleton] at hm
        have h0 : r.2 = ([] : List Nat) := by rw [hm]
        rw [h0]
        exact List.nodup_nil

/-! ### The claims -/

/-- C1: handling a `join-room` message creates the room when its identifier is
unseen (the connection becomes its single member), inserts idempotently
(membership stays duplicate-free, and a repeated join leaves the member set
unchanged), and sends a `joined` acknowledgment carrying the room identifier
and the post-insert member count to the joining connection and to no other
connection. -/
theorem join_room_spec (st : ServerState) (cid : Nat) (data : Json)
    (hty : data.get "type" = some (.str "join-room"))
    (hnd : ∀ r ∈ st.rooms, r.2.Nodup) :
    (hasRoom st.rooms (data.get "roomId") = false →
      membersOf (handleMessage st cid (some data)).1 (data.get "roomId") = [cid]) ∧
    cid ∈ membersOf (handleMessage st cid (some data)).1 (data.get "roomId") ∧
    (cid ∈ membersOf st (data.get "roomId") →
      membersOf (handleMessage st cid (some data)).1 (data.get "roomId") =
        membersOf st (data.get "roomId")) ∧
    (∀ r ∈ (handleMessage st cid (some data)).1.rooms, r.2.Nodup) ∧
    (handleMessage st cid (some data)).2 =
      [(cid, joinedAck (data.get "roomId")
         (membersOf (handleMessage st cid (some data)).1 (data.get "roomId")).length)] := by
  rw [handleMessage_join st cid data hty]
  dsimp only
  have hmem : membersOf (updateConn
      { st with rooms := joinRooms st.rooms (data.get "roomId") cid } cid
      (fun c => { c with roomId := data.get "roomId",
                         senderId := data.get "senderId" })) (data.get "roomId") =
      addMember ((lookupRoom st.rooms (data.get "roomId")).getD []) cid := by
    unfold membersOf
    rw [rooms_updateConn]
    show (lookupRoom (joinRooms st.rooms (data.get "roomId") cid)
      (data.get "roomId")).getD [] = _
    rw [lookupRoom_joinRooms_self]
    rfl
  refine ⟨?_, ?_, ?_, ?_, ?_⟩
  · intro hhas
    rw [hmem]
    have hl : lookupRoom st.rooms (data.get "roomId") = none :=
      Option.not_isSome_iff_eq_none.mp (by simpa [hasRoom] using hhas)
    rw [hl]
    rfl
  · rw [hmem]
    exact mem_addMember_self _ cid
  · intro hin
    unfold membersOf at hin
    rw [hmem]
    show addMember ((lookupRoom st.rooms (data.get "roomId")).getD []) cid =
      (lookupRoom st.rooms (data.get "roomId")).getD []
    unfold addMember
    rw [if_pos hin]
  · exact joinRooms_nodup _ cid hnd
  · rw [hmem, lookupRoom_joinRooms_self, Option.getD_some]

/-- C1 witness: joining unseen room "r1" on a fresh server. -/
theorem join_room_spec_witness :
    ((joinMsg "r1").get "type" = some (.str "join-room") ∧
     (∀ r ∈ oneConnState.rooms, r.2.Nodup)) ∧
    ((hasRoom oneConnState.rooms ((joinMsg "r1").get "roomId") = false →
      membersOf (handleMessage oneConnState 0 (some (joinMsg "r1"))).1
        ((joinMsg "r1").get "roomId") = [0]) ∧
    0 ∈ membersOf (handleMessage oneConnState 0 (some (joinMsg "r1"))).1
        ((joinMsg "r1").get "roomId") ∧
    (0 ∈ membersOf oneConnState ((joinMsg "r1").get "roomId") →
      membersOf (handleMessage oneConnState 0 (some (joinMsg "r1"))).1
          ((joinMsg "r1").get "roomId") =
        membersOf oneConnState ((joinMsg "r1").get "roomId")) ∧
    (∀ r ∈ (handleMessage oneConnState 0 (some (joinMsg "r1"))).1.rooms, r.2.Nodup) ∧
    (handleMessage oneConnState 0 (some (joinMsg "r1"))).2 =
      [(0, joinedAck ((joinMsg "r1").get "roomId")
         (membersOf (handleMessage oneConnState 0 (some (joinMsg "r1"))).1
           ((joinMsg "r1").get "roomId")).length)]) :=
  ⟨⟨by decide, by decide⟩, join_room_spec oneConnState 0 (joinMsg "r1") (by decide) (by decide)⟩

/-- C2: a negotiation envelope relayed within an existing room is never
delivered back to its sender; the delivery list is duplicate-free and every
other member whose connection is open appears in it — so each such member
receives the envelope exactly once; members whose connection is not open, and
connections outside the member set, receive nothing. -/
theorem broadcast_except_sender (st : ServerState) (cid : Nat) (data : Json)
    (ms : List Nat) (hty : isRelayType data = true)
    (hroom : lookupRoom st.rooms (data.get "roomId") = some ms)
    (hnd : ms.Nodup) :
    (handleMessage st cid (some data)).2.Nodup ∧
    (∀ j, (cid, j) ∉ (handleMessage st cid (some data)).2) ∧
    (∀ m ∈ ms, m ≠ cid → connOpen st m = true →
      (m, data) ∈ (handleMessage st cid (some data)).2) ∧
    (∀ p ∈ (handleMessage st cid (some data)).2,
      p.1 ∈ ms ∧ p.1 ≠ cid ∧ connOpen st p.1 = true ∧ p.2 = data) := by
  rw [handleMessage_relay st cid data hty, hroom]
  dsimp only
  refine ⟨?_, ?_, ?_, ?_⟩
  · have hinj : Function.Injective (fun m : Nat => (m, data)) :=
      fun a b h => (Prod.ext_iff.mp h).1
    exact (hnd.filter _).map hinj
  · intro j hj
    obtain ⟨m, hm, he⟩ := List.mem_map.mp hj
    obtain ⟨hm1, hm2⟩ := List.mem_filter.mp hm
    have hmc : m = cid := (Prod.ext_iff.mp he).1
    rw [hmc] at hm2
    simp at hm2
  · intro m hm hmc hop
    exact List.mem_map.mpr ⟨m, List.mem_filter.mpr ⟨hm, by simp [hmc, hop]⟩, rfl⟩
  · intro p hp
    obtain ⟨m, hm, he⟩ := List.mem_map.mp hp
    obtain ⟨hm1, hm2⟩ := List.mem_filter.mp hm
    rw [Bool.and_eq_true] at hm2
    obtain ⟨he1, he2⟩ := Prod.ext_iff.mp he
    refine ⟨he1 ▸ hm1, he1 ▸ (by simpa using hm2.1), he1 ▸ hm2.2, he2.symm⟩

/-- C2 witness: an offer in room "r1" from connection 0 reaches exactly
connection 1. -/
theorem broadcast_except_sender_witness :
    (isRelayType (offerMsg "r1" "X") = true ∧
     lookupRoom twoInRoomState.rooms ((offerMsg "r1" "X").get "roomId") = some [0, 1] ∧
     ([0, 1] : List Nat).Nodup) ∧
    ((handleMessage twoInRoomState 0 (some (offerMsg "r1" "X"))).2.Nodup ∧
    (∀ j, ((0 : Nat), j) ∉ (handleMessage twoInRoomState 0 (some (offerMsg "r1" "X"))).2) ∧
    (∀ m ∈ ([0, 1] : List Nat), m ≠ 0 → connOpen twoInRoomState m = true →
      (m, offerMsg "r1" "X") ∈ (handleMessage twoInRoomState 0 (some (offerMsg "r1" "X"))).2) ∧
    (∀ p ∈ (handleMessage twoInRoomState 0 (some (offerMsg "r1" "X"))).2,
      p.1 ∈ ([0, 1] : List Nat) ∧ p.1 ≠ 0 ∧ connOpen twoInRoomState p.1 = true ∧
      p.2 = offerMsg "r1" "X")) :=
  ⟨⟨by decide, by decide, by decide⟩,
   broadcast_except_sender twoInRoomState 0 (offerMsg "r1" "X") [0, 1]
     (by decide) (by decide) (by decide)⟩

/-- C3: at every state reachable from the initial state, no room with an
empty member set is present in the registry (rooms are created non-empty on
first join and deleted in the same step that empties them). -/
theorem reachable_no_empty_room (evs : List Event) :
    ∀ r ∈ (run initState evs).rooms, r.2 ≠ [] :=
  (WF_run WF_initState evs).2.2.1

/-- C3 witness: after a connect and a join, room "r1" is the registry entry
reached, and its member set is non-empty. -/
theorem reachable_no_empty_room_witness :
    ((some (Json.str "r1"), [0]) : RoomKey × List Nat) ∈
      (run initState [.connect 0, .message 0 (some (joinMsg "r1"))]).rooms ∧
    ((some (Json.str "r1"), [0]) : RoomKey × List Nat).2 ≠ [] :=
  ⟨by decide,
   reachable_no_empty_room [.connect 0, .message 0 (some (joinMsg "r1"))]
     (some (Json.str "r1"), [0]) (by decide)⟩

/-- C4: a negotiation envelope addressed to a room with no registry entry is
a no-op: no deliveries, no error, and both registries unchanged. -/
theorem relay_unknown_room_noop (st : ServerState) (cid : Nat) (data : Json)
    (hty : isRelayType data = true)
    (hroom : lookupRoom st.rooms (data.get "roomId") = none) :
    handleMessage st cid (some data) = (st, []) := by
  rw [handleMessage_relay st cid data hty, hroom]

/-- C4 witness: an offer to the unknown room "r1" on a fresh server. -/
theorem relay_unknown_room_noop_witness :
    (isRelayType (offerMsg "r1" "X") = true ∧
     lookupRoom oneConnState.rooms ((offerMsg "r1" "X").get "roomId") = none) ∧
    handleMessage oneConnState 0 (some (offerMsg "r1" "X")) = (oneConnState, []) :=
  ⟨⟨by decide, by decide⟩,
   relay_unknown_room_noop oneConnState 0 (offerMsg "r1" "X") (by decide) (by decide)⟩

/-- C5: a frame that is unparseable as JSON, or parseable JSON whose `type`
is missing or unknown, is dropped: the state (both registries, and the
connection's open flag) is unchanged and nothing is delivered. -/
theorem malformed_frame_dropped (st : ServerState) (cid : Nat) (frame : Option Json)
    (h : ∀ data, frame = some data →
      data.get "type" ≠ some (.str "join-room") ∧ isRelayType data = false) :
    handleMessage st cid frame = (st, []) := by
  match frame with
  | none => rfl
  | some data =>
      obtain ⟨h1, h2⟩ := h data rfl
      exact handleMessage_other st cid data h1 h2

/-- C5 witness: an unparseable frame, a frame missing `type`, and a frame of
unknown `type` are all dropped on a fresh server. -/
theorem malformed_frame_dropped_witness :
    handleMessage oneConnState 0 none = (oneConnState, []) ∧
    handleMessage oneConnState 0 (some (Json.obj (.cons "roomId" (.str "r1") .nil))) =
      (oneConnState, []) ∧
    handleMessage oneConnState 0
      (some (Json.obj (.cons "type" (.str "chat") .nil))) = (oneConnState, []) :=
  ⟨malformed_frame_dropped oneConnState 0 none (fun data hd => by cases hd),
   malformed_frame_dropped oneConnState 0 _ (fun data hd => by
     injection hd with hd
     subst hd
     exact ⟨by decide, by decide⟩),
   malformed_frame_dropped oneConnState 0 _ (fun data hd => by
     injection hd with hd
     subst hd
     exact ⟨by decide, by decide⟩)⟩

/-- C7: every envelope delivered by the relay branch is exactly the JSON
value parsed from the sender's frame — all fields, known or unknown,
including `payload`, are passed through unmodified. -/
theorem relay_preserves_envelope (st : ServerState) (cid : Nat) (data : Json)
    (hty : isRelayType data = true) :
    ∀ p ∈ (handleMessage st cid (some data)).2, p.2 = data := by
  rw [handleMessage_relay st cid data hty]
  cases lookupRoom st.rooms (data.get "roomId") with
  | none => simp
  | some ms =>
      intro p hp
      obtain ⟨m, _, he⟩ := List.mem_map.mp hp
      rw [← he]

/-- C7 witness: the delivered offer equals the parsed envelope verbatim. -/
theorem relay_preserves_envelope_witness :
    isRelayType (offerMsg "r1" "X") = true ∧
    ∀ p ∈ (handleMessage twoInRoomState 0 (some (offerMsg "r1" "X"))).2,
      p.2 = offerMsg "r1" "X" :=
  ⟨by decide, relay_preserves_envelope twoInRoomState 0 (offerMsg "r1" "X") (by decide)⟩

/-- Connection 0 recorded in room "a"; room "a" = {0, 2}, room "b" = {1},
all three connections open. -/
def envelopeRoomState : ServerState :=
  ⟨[{ id := 0, isOpen := true, isAlive := true, roomId := some (.str "a"), senderId := none },
    { id := 1, isOpen := true, isAlive := true, roomId := some (.str "b"), senderId := none },
    { id := 2, isOpen := true, isAlive := true, roomId := some (.str "a"), senderId := none }],
   [(some (.str "a"), [0, 2]), (some (.str "b"), [1])]⟩

/-- C6 counterexample: connection 0's recorded room is "a", yet its offer
whose envelope says `roomId: "b"` is delivered to connection 1 — the sole
member of room "b", not a member of room "a" — and not to the open member 2
of the recorded room "a". The relay therefore does not broadcast over the
room recorded against the connection at join time. -/
theorem relay_recorded_room_counterexample :
    connRoom envelopeRoomState 0 = some (.str "a") ∧
    (1 : Nat) ∉ membersOf envelopeRoomState (some (.str "a")) ∧
    (2 : Nat) ∈ membersOf envelopeRoomState (some (.str "a")) ∧
    connOpen envelopeRoomState 2 = true ∧
    (handleMessage envelopeRoomState 0 (some (offerMsg "b" "X"))).2 =
      [(1, offerMsg "b" "X")] := by
  decide

/-- C6 amended: the relay broadcasts over the `roomId` carried by the
envelope itself, with the connection identity as the exclusion key; the room
identifier recorded against the connection at join time is not consulted —
overwriting it changes nothing about the deliveries. -/
theorem relay_uses_envelope_roomId (st : ServerState) (cid : Nat) (data : Json)
    (k : RoomKey) (hty : isRelayType data = true) :
    (handleMessage st cid (some data)).2 =
      (match lookupRoom st.rooms (data.get "roomId") with
       | none => []
       | some ms => (ms.filter (fun m => m != cid && connOpen st m)).map
           (fun m => (m, data))) ∧
    (handleMessage (updateConn st cid (fun c => { c with roomId := k })) cid
        (some data)).2 = (handleMessage st cid (some data)).2 := by
  constructor
  · rw [handleMessage_relay st cid data hty]
  · rw [handleMessage_relay _ cid data hty, handleMessage_relay st cid data hty]
    rw [rooms_updateConn]
    have hco : ∀ m, connOpen (updateConn st cid (fun c => { c with roomId := k })) m =
        connOpen st m :=
      fun m => connOpen_updateConn st cid _ m (fun c => rfl) (fun c => rfl)
    cases lookupRoom st.rooms (data.get "roomId") with
    | none => rfl
    | some ms => simp only [hco]

/-- C6 amended witness: overwriting connection 0's recorded room does not
change the delivery of its offer addressed to room "b". -/
theorem relay_uses_envelope_roomId_witness :
    isRelayType (offerMsg "b" "X") = true ∧
    ((handleMessage envelopeRoomState 0 (some (offerMsg "b" "X"))).2 =
      (match lookupRoom envelopeRoomState.rooms ((offerMsg "b" "X").get "roomId") with
       | none => []
       | some ms => (ms.filter (fun m => m != 0 && connOpen envelopeRoomState m)).map
           (fun m => (m, offerMsg "b" "X"))) ∧
    (handleMessage (updateConn envelopeRoomState 0
        (fun c => { c with roomId := some (.str "z") })) 0
        (some (offerMsg "b" "X"))).2 =
      (handleMessage envelopeRoomState 0 (some (offerMsg "b" "X"))).2) :=
  ⟨by decide, relay_uses_envelope_roomId envelopeRoomState 0 (offerMsg "b" "X")
    (some (.str "z")) (by decide)⟩

/-- A single open connection whose liveness flag is false. -/
def staleFlagState : ServerState :=
  ⟨[{ id := 0, isOpen := true, isAlive := false, roomId := none, senderId := none }], []⟩

/-- C9 counterexample: a connection whose liveness flag is false sends a
fully processed data message (a join), yet its flag stays false — receiving
data does not mark the connection alive; only a pong does. -/
theorem message_does_not_mark_alive :
    connAlive staleFlagState 0 = false ∧
    connOpen staleFlagState 0 = true ∧
    (handleMessage staleFlagState 0 (some (joinMsg "r1"))).2 ≠ [] ∧
    connAlive (handleMessage staleFlagState 0 (some (joinMsg "r1"))).1 0 = false ∧
    connAlive (handlePong staleFlagState 0) 0 = true := by
  decide

/-- C9 amended: the liveness flag is set true exactly when a pong arrives;
the message handler — for any frame whatsoever — never changes any
connection's liveness flag. -/
theorem liveness_flag_pong_only (st : ServerState) (cid m : Nat)
    (frame : Option Json) (hopen : connOpen st cid = true) :
    connAlive (handlePong st cid) cid = true ∧
    connAlive (handleMessage st cid frame).1 m = connAlive st m := by
  constructor
  · unfold connAlive handlePong
    rw [findConn_updateConn_preserving st cid setAlive cid setAlive_id]
    unfold connOpen at hopen
    cases he : findConn st cid with
    | none => rw [he] at hopen; simp at hopen
    | some c =>
        have hc : c.id = cid := findConn_id he
        simp [hc, setAlive]
  · match frame with
    | none => rfl
    | some data =>
        by_cases hty : data.get "type" = some (.str "join-room")
        · rw [handleMessage_join st cid data hty]
          dsimp only
          unfold connAlive
          rw [findConn_updateConn_preserving
            { st with rooms := joinRooms st.rooms (data.get "roomId") cid } cid
            (fun c => { c with roomId := data.get "roomId",
                               senderId := data.get "senderId" }) m (fun c => rfl)]
          have hsame :
              findConn { st with rooms := joinRooms st.rooms (data.get "roomId") cid } m =
                findConn st m := rfl
          rw [hsame]
          cases findConn st m with
          | none => rfl
          | some c => by_cases h : c.id = cid <;> simp [h]
        · by_cases hrel : isRelayType data = true
          · rw [handleMessage_relay st cid data hrel]
          · rw [handleMessage_other st cid data hty (by simpa using hrel)]

/-- C9 amended witness. -/
theorem liveness_flag_pong_only_witness :
    connOpen staleFlagState 0 = true ∧
    (connAlive (handlePong staleFlagState 0) 0 = true ∧
     connAlive (handleMessage staleFlagState 0 (some (joinMsg "r1"))).1 0 =
       connAlive staleFlagState 0) :=
  ⟨by decide, liveness_flag_pong_only staleFlagState 0 0 (some (joinMsg "r1")) (by decide)⟩

/-- C8 counterexample: a connection that never pongs is probed exactly once —
at the first tick — and evicted at the second tick without ever being sent a
second probe. Eviction therefore follows a single unacknowledged probe, not
two. -/
theorem heartbeat_single_probe_eviction :
    (heartbeatTick oneConnState).2.2 = [0] ∧
    (heartbeatTick oneConnState).2.1 = [] ∧
    connOpen (heartbeatTick oneConnState).1 0 = true ∧
    (heartbeatTick (heartbeatTick oneConnState).1).2.1 = [0] ∧
    (heartbeatTick (heartbeatTick oneConnState).1).2.2 = [] ∧
    connOpen (heartbeatTick (heartbeatTick oneConnState).1).1 0 = false := by
  decide

/-- C8 amended: at each heartbeat tick, a live connection is evicted exactly
when its liveness flag is false — that is, when the single probe sent at the
previous tick went unacknowledged. Eviction happens at that very tick (within
one heartbeat interval of the missed probe) and removes the connection from
its recorded room's member set (when it has a truthy one); the evicted
connection is not probed again. A connection whose flag is set survives the
tick with its flag cleared and a fresh probe sent; in particular a connection
that acknowledges the probe (pong) before the next tick is never evicted. -/
theorem heartbeat_eviction_spec (st : ServerState) (c : Conn) (hw : WF st)
    (hc : c ∈ st.conns) (hopen : c.isOpen = true) :
    (c.isAlive = false →
       connOpen (heartbeatTick st).1 c.id = false ∧
       c.id ∈ (heartbeatTick st).2.1 ∧
       c.id ∉ (heartbeatTick st).2.2 ∧
       (keyTruthy c.roomId = true →
         c.id ∉ membersOf (heartbeatTick st).1 c.roomId)) ∧
    (c.isAlive = true →
       connOpen (heartbeatTick st).1 c.id = true ∧
       connAlive (heartbeatTick st).1 c.id = false ∧
       c.id ∈ (heartbeatTick st).2.2 ∧
       c.id ∉ (heartbeatTick st).2.1) ∧
    connOpen (heartbeatTick (handlePong st c.id)).1 c.id = true := by
  refine ⟨fun hdead => tick_evicts hw hc hopen hdead,
          fun halive => tick_survives hw hc hopen halive, ?_⟩
  have hw' : WF (handlePong st c.id) := WF_handlePong hw c.id
  have hc' : setAlive c ∈ (handlePong st c.id).conns := by
    refine List.mem_map.mpr ⟨c, hc, ?_⟩
    simp
  have hsur := tick_survives hw' hc' (by simp [setAlive, hopen]) (by simp [setAlive])
  have hid : (setAlive c).id = c.id := rfl
  rw [hid] at hsur
  exact hsur.1

/-- A connection record with a cleared liveness flag, member of room "a". -/
def deadMemberConn : Conn :=
  { id := 0, isOpen := true, isAlive := false, roomId := some (.str "a"),
    senderId := none }

/-- A server holding just `deadMemberConn` inside room "a". -/
def deadMemberState : ServerState :=
  ⟨[deadMemberConn], [(some (.str "a"), [0])]⟩

/-- C8 amended witness: a dead-flagged member of room "a". -/
theorem heartbeat_eviction_spec_witness :
    (WF deadMemberState ∧ deadMemberConn ∈ deadMemberState.conns ∧
     deadMemberConn.isOpen = true) ∧
    ((deadMemberConn.isAlive = false →
       connOpen (heartbeatTick deadMemberState).1 deadMemberConn.id = false ∧
       deadMemberConn.id ∈ (heartbeatTick deadMemberState).2.1 ∧
       deadMemberConn.id ∉ (heartbeatTick deadMemberState).2.2 ∧
       (keyTruthy deadMemberConn.roomId = true →
         deadMemberConn.id ∉
           membersOf (heartbeatTick deadMemberState).1 deadMemberConn.roomId)) ∧
    (deadMemberConn.isAlive = true →
       connOpen (heartbeatTick deadMemberState).1 deadMemberConn.id = true ∧
       connAlive (heartbeatTick deadMemberState).1 deadMemberConn.id = false ∧
       deadMemberConn.id ∈ (heartbeatTick deadMemberState).2.2 ∧
       deadMemberConn.id ∉ (heartbeatTick deadMemberState).2.1) ∧
    connOpen (heartbeatTick (handlePong deadMemberState deadMemberConn.id)).1
      deadMemberConn.id = true) :=
  ⟨⟨⟨by decide, by decide, by decide, by decide⟩, by decide, by decide⟩,
   heartbeat_eviction_spec deadMemberState deadMemberConn
     ⟨by decide, by decide, by decide, by decide⟩ (by decide) (by decide)⟩

/-- The C10 scenario: 0 and 1 connect, both join room "a", then 0 joins
room "b"; finally 0 disconnects. -/
def rejoinEvents : List Event :=
  [.connect 0, .connect 1, .message 0 (some (joinMsg "a")),
   .message 1 (some (joinMsg "a")), .message 0 (some (joinMsg "b"))]

def rejoinState : ServerState := run initState rejoinEvents

def rejoinClosedState : ServerState := (step rejoinState (.close 0)).1

/-- C10: after joining room "a" and then room "b", connection 0 is still a
member of "a" (only its recorded room identifier was overwritten to "b"), so
a broadcast addressed to "a" still reaches it; on disconnect it is removed
only from "b" (which, emptied, is deleted), while room "a" permanently
retains the stale entry for the closed connection: after any further event
sequence whatsoever, 0 is still listed in room "a" and room "a" is still
present in the registry. -/
theorem rejoin_stale_membership :
    connRoom rejoinState 0 = some (.str "b") ∧
    (0 : Nat) ∈ membersOf rejoinState (some (.str "a")) ∧
    (0 : Nat) ∈ membersOf rejoinState (some (.str "b")) ∧
    (handleMessage rejoinState 1 (some (offerMsg "a" "X"))).2 =
      [(0, offerMsg "a" "X")] ∧
    (0 : Nat) ∉ membersOf rejoinClosedState (some (.str "b")) ∧
    lookupRoom rejoinClosedState.rooms (some (.str "b")) = none ∧
    (0 : Nat) ∈ membersOf rejoinClosedState (some (.str "a")) ∧
    connOpen rejoinClosedState 0 = false ∧
    ∀ evs : List Event,
      (0 : Nat) ∈ membersOf (run rejoinClosedState evs) (some (.str "a")) ∧
      lookupRoom (run rejoinClosedState evs).rooms (some (.str "a")) ≠ none := by
  refine ⟨by decide, by decide, by decide, by decide, by decide, by decide,
    by decide, by decide, ?_⟩
  intro evs
  have hw : WF rejoinClosedState := ⟨by decide, by decide, by decide, by decide⟩
  have hs : StaleIn rejoinClosedState 0 (some (.str "a")) := ⟨by decide, by decide⟩
  have hrun := stale_run hw hs evs
  exact ⟨hrun.2, lookupRoom_ne_none_of_mem_membersOf hrun.2⟩

end RemoteTeleop
